import Mathlib

/-!
# MoneyMover — Reconciliation & Classification Engine, verified model

A shallow embedding of the core decision logic of the MoneyMover
repository (ING statement selection, ledger dedup, preset rule matching,
category-id resolution, category tree navigation, transfer payloads),
with theorems settling the specification's claims about it.

Calendar dates are day numbers (`Int`); monetary amounts are exact
(`Int`, e.g. cents), which is faithful because the embedded code never
does arithmetic on them, only equality tests and pass-through.
-/

namespace MoneyMover

/-! ## Statement Selector (`ing_parser.py`)

`IngParser._find_closest_end_date_file` receives, for each `*.csv` file in
the statement folder, the result of `re.match` against
`(.+)_(\d{2}-\d{2}-\d{4})_(\d{2}-\d{2}-\d{4})`: either `None` or a match
whose groups parse to a start and an end date.  A match is modelled as a
`FileMatch`; the regex/strptime collaborator is an abstract
`matcher : String → Option (Int × Int)` giving the parsed
(start, end) day numbers of a file name when it matches the pattern. -/

/-- A successful `re.match` on one file name: `.string` is the original
file name, `start_date`/`end_date` its two parsed dates (day numbers). -/
structure FileMatch where
  string : String
  start_date : Int
  end_date : Int
  deriving Repr, DecidableEq

/-- The loop body state of `_find_closest_end_date_file`:
`none` models `recent_file = None` / `closest_days_diff = float("inf")`,
`some (d, f, s, e)` models the best signed diff `d` so far together with
`recent_file = f` and `self.date_range = (s, e)`. -/
def findClosestGo (today : Int) :
    List (Option FileMatch) → Option (Int × String × Int × Int) →
    Option (Int × String × Int × Int)
  | [], acc => acc
  | none :: ms, acc => findClosestGo today ms acc
  | some m :: ms, acc =>
      let d := today - m.end_date
      match acc with
      | none => findClosestGo today ms (some (d, m.string, m.start_date, m.end_date))
      | some (best, f, s, e) =>
          if d < best then
            findClosestGo today ms (some (d, m.string, m.start_date, m.end_date))
          else
            findClosestGo today ms (some (best, f, s, e))

/-- `IngParser._find_closest_end_date_file`: scan the match list keeping
the candidate with the strictly smallest signed `days_diff = today -
end_date`; return the winning file name and the recorded
`date_range`, or raise `FileNotFoundError` (modelled as `.error ()`)
when no file matched. -/
def findClosestEndDateFile (today : Int) (ms : List (Option FileMatch)) :
    Except Unit (String × Int × Int) :=
  match findClosestGo today ms none with
  | some (_, f, s, e) => .ok (f, s, e)
  | none => .error ()

/-- `IngParser._find_statement`: run the file-name pattern over every
`.csv` file of the folder and hand the match list to
`findClosestEndDateFile`. -/
def findStatement (today : Int) (matcher : String → Option (Int × Int))
    (csvFiles : List String) : Except Unit (String × Int × Int) :=
  findClosestEndDateFile today
    (csvFiles.map fun f => (matcher f).map fun (s, e) => ⟨f, s, e⟩)

/-! ## Data model (`moneymover.py`, `moneylover_api.py`)

Pandas cell values that may cross the numeric/string boundary (the
`_id` and `parent` columns of the categories table) are modelled by
`PyVal`; pandas elementwise `==` on such cells is `PyVal` equality, so a
numeric cell never equals a string cell.  A transaction amount is an
exact integer (cents) and a date an integer day number: the embedded
code only ever tests them for equality or passes them through. -/

/-- A pandas cell that is either a string or a number. -/
inductive PyVal where
  | str (v : String)
  | int (v : Int)
  deriving Repr, DecidableEq

/-- The Python `str(...)` form of a `PyVal`. -/
def pyStr : PyVal → String
  | .str v => v
  | .int v => toString v

/-- One row of the categories table
(columns `wallet_id`, `name`, `type`, `_id`, `parent`). -/
structure Category where
  wallet_id : String
  name : String
  type : String
  id : PyVal
  parent : Option PyVal
  deriving Repr, DecidableEq

/-- A MoneyLover ledger transaction as produced by
`MoneyMover._format_transactions`. -/
structure LedgerTransaction where
  note : String
  amount : Int
  date : Int
  category : String
  deriving Repr, DecidableEq

/-- A bank-statement row: the typed `amount` and `date` columns used by
dedup and payload building, plus the string forms of the columns seen by
the preset matcher (`str(bank_transaction.get(column, ""))`). -/
structure BankTransaction where
  amount : Int
  date : Int
  fields : List (String × String)
  deriving Repr, DecidableEq

/-- The classification label attached to a preset rule
(`preset["label"]`). -/
structure Label where
  note : String
  category_name : String
  type : String
  deriving Repr, DecidableEq

/-- A preset rule: `conditions` maps column names to pattern strings. -/
structure Preset where
  conditions : List (String × String)
  label : Label
  deriving Repr, DecidableEq

/-- A bank-statement row augmented with the two computed flags and the
resolved label columns (`is_in_ml`, `has_preset`, `note`/`category_name`/`type`). -/
structure Row where
  tx : BankTransaction
  is_in_ml : Bool
  has_preset : Bool
  label : Option Label
  deriving Repr, DecidableEq

/-! ## Dedup pass (`MoneyMover._check_if_already_added`) -/

/-- `MoneyMover._check_if_already_added`: when the ledger set is empty
every row gets `is_in_ml = False`; otherwise a row is flagged when its
amount occurs among the ledger amounts AND its date occurs among the
ledger dates — the two `isin` masks are computed against the whole
ledger set independently and conjoined. -/
def checkIfAlreadyAdded (ml : List LedgerTransaction)
    (banks : List BankTransaction) : List (BankTransaction × Bool) :=
  if ml.isEmpty then
    banks.map fun b => (b, false)
  else
    banks.map fun b =>
      (b, (ml.any fun l => l.amount == b.amount) &&
          (ml.any fun l => l.date == b.date))

/-! ## Preset Rule Matcher (`MoneyMover._is_preset_matched`,
`MoneyMover._compare_to_presets`)

The regex collaborator is abstract: `rmatch pat v` stands for
"`re.match(pat, v, re.IGNORECASE)` succeeds", i.e. the pattern matches
case-insensitively anchored at the start of `v`. -/

/-- `str(bank_transaction.get(column, ""))`: the string form of a
column, the empty string when the column is missing. -/
def fieldStr (b : BankTransaction) (column : String) : String :=
  (b.fields.lookup column).getD ""

/-- `MoneyMover._is_preset_matched`: every declared condition must
succeed; the loop returns `False` on the first failing condition. -/
def isPresetMatched (rmatch : String → String → Bool)
    (b : BankTransaction) (p : Preset) : Bool :=
  p.conditions.all fun c => rmatch c.2 (fieldStr b c.1)

/-- The per-row core of `MoneyMover._compare_to_presets`: scan the rule
list in order and return the label of the first fully matching rule
(the loop breaks at the first match). -/
def compareToPresets (rmatch : String → String → Bool)
    (presets : List Preset) (b : BankTransaction) : Option Label :=
  (presets.find? (isPresetMatched rmatch b)).map Preset.label

/-- The dedup pass over a statement, producing `Row`s
(`has_preset` still at its pre-pass default `False`). -/
def dedupPass (ml : List LedgerTransaction)
    (banks : List BankTransaction) : List Row :=
  (checkIfAlreadyAdded ml banks).map fun p => ⟨p.1, p.2, false, none⟩

/-- `MoneyMover._compare_to_presets` over the whole table: every row is
visited (the loop iterates `transactions_df.iterrows()` with no
dedup filter); a match sets `has_preset` and the three label columns. -/
def presetPass (rmatch : String → String → Bool)
    (presets : List Preset) (rows : List Row) : List Row :=
  rows.map fun r =>
    match compareToPresets rmatch presets r.tx with
    | some lab => { r with has_preset := true, label := some lab }
    | none => { r with has_preset := false }

/-! ## Transfer orchestration (`MoneyMover.transfer_bank_transactions`) -/

/-- The row table after both passes, as built at the top of
`transfer_bank_transactions`. -/
def processedRows (rmatch : String → String → Bool) (presets : List Preset)
    (ml : List LedgerTransaction) (banks : List BankTransaction) : List Row :=
  presetPass rmatch presets (dedupPass ml banks)

/-- `transactions_to_add = tr_df[~tr_df["is_in_ml"] & tr_df["has_preset"]]`. -/
def transactionsToAdd (rmatch : String → String → Bool) (presets : List Preset)
    (ml : List LedgerTransaction) (banks : List BankTransaction) : List Row :=
  (processedRows rmatch presets ml banks).filter fun r =>
    !r.is_in_ml && r.has_preset

/-- `remaining = tr_df[~(tr_df["is_in_ml"] | tr_df["has_preset"])]`. -/
def remainingRows (rmatch : String → String → Bool) (presets : List Preset)
    (ml : List LedgerTransaction) (banks : List BankTransaction) : List Row :=
  (processedRows rmatch presets ml banks).filter fun r =>
    !(r.is_in_ml || r.has_preset)

/-! ## Category-id resolution (`MoneyMover._get_category_id`) -/

/-- The rows of the cached categories table matching all three masks
(`wallet_id`, `name`, `type`). -/
def matchingCategories (cats : List Category)
    (walletId catName ctype : String) : List Category :=
  cats.filter fun c =>
    c.wallet_id == walletId && c.name == catName && c.type == ctype

/-- `MoneyMover._get_category_id`: zero matches raise
`ValueError` (`.error`); otherwise the id of the first match
(`.iloc[0]["_id"]`) is returned, with the second component recording
whether the more-than-one-match warning was printed. -/
def getCategoryId (cats : List Category)
    (walletId catName ctype : String) : Except String PyVal × Bool :=
  match matchingCategories cats walletId catName ctype with
  | [] => (.error ("No matching category found for " ++ catName), false)
  | c :: rest => (.ok c.id, !rest.isEmpty)

/-! ## Payloads and the automatic transfer pass
(`MoneyMover._create_payload`, `_create_payload_from_preset`,
`_transfer_from_presets`, `MoneyLoverClient.add_transaction`) -/

/-- The kind of Python exception escaping a transfer step. -/
inductive PyErr where
  | keyError
  | valueError
  deriving Repr, DecidableEq

/-- An observable line printed during the transfer pass:
`invalidCategory` is the `except KeyError` print of
`_create_payload_from_preset`; `added` is the success print of
`_transfer_from_presets`. -/
inductive PrintEvent where
  | invalidCategory (catName : String)
  | added (note : String) (amount : Int)
  deriving Repr, DecidableEq

/-- `MoneyMover._create_payload`: the keyword arguments handed to
`add_transaction`. -/
structure Payload where
  wallet_id : String
  category_id : PyVal
  amount : Int
  date : Int
  note : String
  deriving Repr, DecidableEq

/-- `MoneyMover._create_payload` builds the payload verbatim from the
active wallet id, the resolved category id, the transaction row and the
note. -/
def createPayload (walletId : String) (categoryId : PyVal)
    (b : BankTransaction) (note : String) : Payload :=
  ⟨walletId, categoryId, b.amount, b.date, note⟩

/-- The argument record of `MoneyLoverClient.add_transaction`
(`transaction_data`): `account`, `category`, `amount`, `note`,
`displayDate`. -/
structure ApiCall where
  account : String
  category : PyVal
  amount : Int
  note : String
  displayDate : Int
  deriving Repr, DecidableEq

/-- `MoneyLoverClient.add_transaction` forwards the payload fields into
the request body unchanged (the date is serialized but not altered). -/
def addTransaction (p : Payload) : ApiCall :=
  ⟨p.wallet_id, p.category_id, p.amount, p.note, p.date⟩

/-- `MoneyMover._create_payload_from_preset` for a row whose label
columns are present (every row of `transactions_to_add` has them, being
filtered on `has_preset`).  A failed id resolution raises `ValueError`
inside `_get_category_id`; the surrounding `except KeyError` clause —
whose handler prints the offending category name — does not catch a
`ValueError`, so the error propagates bare and nothing is printed. -/
def createPayloadFromPreset (cats : List Category) (walletId : String)
    (b : BankTransaction) (lab : Label) :
    Except PyErr Payload × List PrintEvent :=
  match (getCategoryId cats walletId lab.category_name lab.type).1 with
  | .error _ => (.error .valueError, [])
  | .ok cid => (.ok (createPayload walletId cid b lab.note), [])

/-- The observable outcome of `_transfer_from_presets`: payloads
submitted to `add_transaction`, lines printed, and the exception (if
any) escaping the loop. -/
structure TransferOutcome where
  submitted : List Payload
  printed : List PrintEvent
  err : Option PyErr
  deriving Repr, DecidableEq

/-- `MoneyMover._transfer_from_presets`: rows are processed in order;
each successful row is submitted and its success line printed; an
uncaught exception stops the loop, leaving later rows unprocessed and
earlier submissions in place. -/
def transferFromPresets (cats : List Category) (walletId : String) :
    List (BankTransaction × Label) → TransferOutcome
  | [] => ⟨[], [], none⟩
  | (b, lab) :: rs =>
    match createPayloadFromPreset cats walletId b lab with
    | (.error e, pr) => ⟨[], pr, some e⟩
    | (.ok p, pr) =>
        let rest := transferFromPresets cats walletId rs
        ⟨p :: rest.submitted,
         pr ++ PrintEvent.added lab.note b.amount :: rest.printed,
         rest.err⟩

/-! ## Manual entry (`MoneyMover._fill_manually`)

The blocking prompts are modelled by their outcomes: `typeChoice` is
the result of `ui.choose_transaction_type` and `catChoice`, applied to
the type-filtered wallet categories, the result of
`ui.choose_category`; `note` is the free-text input. -/

/-- `MoneyMover._fill_manually`: skip on a skipped type or category;
otherwise resolve the category id (an unresolvable name raises the
`ValueError` out of the method) and submit
`_create_payload(category_id, bank_transaction, note)`. -/
def fillManually (cats : List Category) (walletId : String)
    (walletCats : List Category) (b : BankTransaction)
    (typeChoice : Option String) (catChoice : List Category → Option String)
    (note : String) : Except PyErr (Option Payload) :=
  match typeChoice with
  | none => .ok none
  | some t =>
    let applicable := walletCats.filter fun c => c.type == t
    match catChoice applicable with
    | none => .ok none
    | some cname =>
      match (getCategoryId cats walletId cname t).1 with
      | .error _ => .error .valueError
      | .ok cid => .ok (some (createPayload walletId cid b note))

/-! ## Category Tree (`prompts.py`, `CategorySelector`)

`CategorySelector.__init__` does `categories.drop_duplicates("name")`
(first occurrence kept); `parent_categories` filters the rows whose
`parent` cell is NA (the merge that adds the child counts preserves the
row order and names); `_get_children` compares the raw `parent` column
against `str(parent_id)` and drops duplicate names. -/

/-- `drop_duplicates` on a list of names, keeping the first occurrence:
`seen` accumulates the names already emitted. -/
def dedupKeepFirstAux (seen : List String) : List String → List String
  | [] => []
  | x :: xs =>
    if x ∈ seen then dedupKeepFirstAux seen xs
    else x :: dedupKeepFirstAux (x :: seen) xs

/-- `drop_duplicates` on a list of names: keep the first occurrence. -/
def dedupKeepFirst (l : List String) : List String :=
  dedupKeepFirstAux [] l

/-- `categories.drop_duplicates("name")` with the emitted names
accumulated in `seen`. -/
def dedupByNameAux (seen : List String) : List Category → List Category
  | [] => []
  | c :: cs =>
    if c.name ∈ seen then dedupByNameAux seen cs
    else c :: dedupByNameAux (c.name :: seen) cs

/-- `categories.drop_duplicates("name")`: keep the first row of each
name. -/
def dedupByName (l : List Category) : List Category :=
  dedupByNameAux [] l

/-- `CategorySelector.parent_categories`: the name-deduplicated rows
whose `parent` cell is NA, in table order. -/
def selectorParents (cats : List Category) : List Category :=
  (dedupByName cats).filter fun c => c.parent == none

/-- `CategorySelector._get_children` on an already name-deduplicated
table: locate the first row named `parentName`, stringify its `_id`
(`str(parent_id)`), select the rows whose raw `parent` cell equals that
string — a numeric `parent` cell never equals a string — and return
their names with duplicates dropped. -/
def getChildren (dcats : List Category) (parentName : String) : List String :=
  match dcats.find? fun c => c.name == parentName with
  | none => []
  | some p =>
      dedupKeepFirst
        (((dcats.filter fun c => c.parent == some (PyVal.str (pyStr p.id))).map
          Category.name))

/-- `_get_children` as reached from a `CategorySelector` built on an
arbitrary categories table (the constructor dedup applied first). -/
def childrenOf (cats : List Category) (parentName : String) : List String :=
  getChildren (dedupByName cats) parentName

/-- Modelled from the spec (for comparison with `getChildren` only):
children are the rows whose `parent` identifier equals the selected
parent id with BOTH sides canonicalized to the same string
representation. -/
def specChildrenOf (cats : List Category) (parentName : String) : List String :=
  let dcats := dedupByName cats
  match dcats.find? fun c => c.name == parentName with
  | none => []
  | some p =>
      dedupKeepFirst
        (((dcats.filter fun c =>
            match c.parent with
            | some v => pyStr v == pyStr p.id
            | none => false).map Category.name))

/-- One token of user input at a selector prompt, as classified by the
source (`isdigit`, `"s"`, `"b"`, the empty string, anything else). -/
inductive Inp where
  | digit (n : Nat)
  | skipTok
  | backTok
  | emptyTok
  | junk
  deriving Repr, DecidableEq

/-- The two interactive positions of the selection loop:
the parent prompt of `_category_selected` and the subcategory prompt of
`_select_subcategory` (which remembers the chosen parent and its child
names). -/
inductive SelState where
  | choosingParent
  | choosingChild (parentName : String) (children : List String)
  deriving Repr, DecidableEq

/-- One prompt round of the `CategorySelector` loop.  At the parent
prompt: an in-range index selects the parent, finishing immediately
when it has no children and descending otherwise; `s` skips (returns
NA); anything else re-prompts.  At the subcategory prompt: an in-range
index returns that child, `b` goes back to the parent prompt, an empty
input accepts the parent, anything else re-prompts.  A selected name
that is the empty string is falsy in `_category_selected`, so the loop
falls back to the parent prompt instead of finishing. -/
def selectorStep (cats : List Category) :
    SelState → Inp → SelState ⊕ Option String
  | .choosingParent, i =>
    match i with
    | .skipTok => .inr none
    | .digit k =>
      let parents := selectorParents cats
      if h : k < parents.length then
        let pname := (parents.get ⟨k, h⟩).name
        let children := childrenOf cats pname
        if children.isEmpty then .inr (some pname)
        else .inl (.choosingChild pname children)
      else .inl .choosingParent
    | _ => .inl .choosingParent
  | .choosingChild pname children, i =>
    match i with
    | .digit k =>
      if h : k < children.length then
        let nm := children.get ⟨k, h⟩
        if nm = "" then .inl .choosingParent else .inr (some nm)
      else .inl (.choosingChild pname children)
    | .backTok => .inl .choosingParent
    | .emptyTok =>
      if pname = "" then .inl .choosingParent else .inr (some pname)
    | _ => .inl (.choosingChild pname children)

/-- `CategorySelector.run` driven by a finite input stream: `none`
when the stream is exhausted with the loop still blocked on input,
`some r` when the loop terminates with outcome `r` (`r = none` is a
skipped transaction). -/
def runSelector (cats : List Category) : SelState → List Inp → Option (Option String)
  | _, [] => none
  | st, i :: rest =>
    match selectorStep cats st i with
    | .inl st2 => runSelector cats st2 rest
    | .inr res => some res

/-! ## Helper lemmas -/

/-- `List.find?` returns the first hit: the list splits at it with every
earlier element failing the test. -/
theorem find?_eq_some_split {α : Type} (p : α → Bool) :
    ∀ (l : List α) (a : α), l.find? p = some a →
      ∃ l1 l2, l = l1 ++ a :: l2 ∧ p a = true ∧ ∀ x ∈ l1, p x = false := by
  intro l
  induction l with
  | nil => intro a h; simp [List.find?] at h
  | cons x xs ih =>
    intro a h
    by_cases hx : p x
    · rw [List.find?_cons_of_pos _ hx] at h
      cases h
      exact ⟨[], xs, rfl, hx, by simp⟩
    · rw [List.find?_cons_of_neg _ (by simpa using hx)] at h
      obtain ⟨l1, l2, rfl, hpa, hall⟩ := ih a h
      refine ⟨x :: l1, l2, rfl, hpa, ?_⟩
      intro y hy
      rcases List.mem_cons.1 hy with rfl | hy2
      · simpa using hx
      · exact hall y hy2

/-- Membership after keep-first deduplication: present iff present in
the input and not among the already-seen names. -/
theorem mem_dedupKeepFirstAux (a : String) :
    ∀ (l seen : List String),
      a ∈ dedupKeepFirstAux seen l ↔ a ∈ l ∧ a ∉ seen := by
  intro l
  induction l with
  | nil => intro seen; simp [dedupKeepFirstAux]
  | cons x xs ih =>
    intro seen
    by_cases hx : x ∈ seen
    · rw [dedupKeepFirstAux, if_pos hx, ih]
      constructor
      · rintro ⟨h1, h2⟩
        exact ⟨List.mem_cons_of_mem x h1, h2⟩
      · rintro ⟨h1, h2⟩
        rcases List.mem_cons.1 h1 with rfl | h1
        · exact absurd hx h2
        · exact ⟨h1, h2⟩
    · rw [dedupKeepFirstAux, if_neg hx]
      by_cases hax : a = x
      · subst hax
        simp [List.mem_cons, hx]
      · constructor
        · intro h
          rcases List.mem_cons.1 h with rfl | h
          · exact absurd rfl hax
          · obtain ⟨h1, h2⟩ := (ih (x :: seen)).1 h
            exact ⟨List.mem_cons_of_mem x h1,
              fun hs => h2 (List.mem_cons_of_mem x hs)⟩
        · rintro ⟨h1, h2⟩
          rcases List.mem_cons.1 h1 with rfl | h1
          · exact absurd rfl hax
          · exact List.mem_cons_of_mem x
              ((ih (x :: seen)).2 ⟨h1, by simp [List.mem_cons, hax, h2]⟩)

/-- Keep-first deduplication never emits a name twice. -/
theorem dedupKeepFirstAux_nodup :
    ∀ (l seen : List String), (dedupKeepFirstAux seen l).Nodup := by
  intro l
  induction l with
  | nil => intro seen; simp [dedupKeepFirstAux]
  | cons x xs ih =>
    intro seen
    by_cases hx : x ∈ seen
    · rw [dedupKeepFirstAux, if_pos hx]
      exact ih _
    · rw [dedupKeepFirstAux, if_neg hx]
      refine List.nodup_cons.2 ⟨?_, ih _⟩
      intro hmem
      exact ((mem_dedupKeepFirstAux x xs (x :: seen)).1 hmem).2
        (List.mem_cons_self x seen)

/-- Every row surviving `drop_duplicates("name")` is a row of the
input. -/
theorem mem_of_mem_dedupByNameAux :
    ∀ (l : List Category) (seen : List String) (c : Category),
      c ∈ dedupByNameAux seen l → c ∈ l := by
  intro l
  induction l with
  | nil => intro seen c h; simp [dedupByNameAux] at h
  | cons d ds ih =>
    intro seen c h
    by_cases hd : d.name ∈ seen
    · rw [dedupByNameAux, if_pos hd] at h
      exact List.mem_cons_of_mem d (ih seen c h)
    · rw [dedupByNameAux, if_neg hd] at h
      rcases List.mem_cons.1 h with rfl | h
      · exact List.mem_cons_self c ds
      · exact List.mem_cons_of_mem d (ih _ c h)

/-- Once the selection loop holds a candidate it never returns to the
empty state. -/
theorem findClosestGo_some_ne_none (today : Int) :
    ∀ (l : List (Option FileMatch)) (a : Int × String × Int × Int),
      findClosestGo today l (some a) ≠ none := by
  intro l
  induction l with
  | nil => intro a; simp [findClosestGo]
  | cons x t ih =>
    intro a
    cases x with
    | none => simpa [findClosestGo] using ih a
    | some m =>
      obtain ⟨ad, af, as2, ae⟩ := a
      by_cases hlt : today - m.end_date < ad
      · simpa [findClosestGo, hlt] using ih _
      · simpa [findClosestGo, hlt] using ih _

/-- Starting from the empty state, the selection loop ends empty iff no
entry of the list is a match. -/
theorem findClosestGo_none_iff (today : Int) :
    ∀ l : List (Option FileMatch),
      findClosestGo today l none = none ↔ ∀ x ∈ l, x = none := by
  intro l
  induction l with
  | nil => simp [findClosestGo]
  | cons x t ih =>
    cases x with
    | none => simpa [findClosestGo] using ih
    | some m =>
      refine iff_of_false ?_ (by simp)
      simpa [findClosestGo] using findClosestGo_some_ne_none today t _

/-- Loop invariant of `_find_closest_end_date_file`: a result is either
the incoming accumulator, undefeated by every match of the list, or a
match of the list with signed difference `today - end_date` strictly
below the accumulator and every earlier match, and not above any later
match (strict improvement keeps the first-seen candidate on ties). -/
theorem findClosestGo_ok (today : Int) :
    ∀ (l : List (Option FileMatch)) (acc : Option (Int × String × Int × Int))
      (d : Int) (f : String) (s e : Int),
      findClosestGo today l acc = some (d, f, s, e) →
      (acc = some (d, f, s, e)
        ∧ ∀ m : FileMatch, some m ∈ l → d ≤ today - m.end_date)
      ∨ (d = today - e
        ∧ (∃ l1 l2, l = l1 ++ some (⟨f, s, e⟩ : FileMatch) :: l2
            ∧ (∀ m : FileMatch, some m ∈ l1 → d < today - m.end_date)
            ∧ (∀ m : FileMatch, some m ∈ l2 → d ≤ today - m.end_date))
        ∧ (∀ b : Int × String × Int × Int, acc = some b → d < b.1)) := by
  intro l
  induction l with
  | nil =>
    intro acc d f s e h
    left
    refine ⟨?_, by simp⟩
    simpa [findClosestGo] using h
  | cons x t ih =>
    intro acc d f s e h
    cases x with
    | none =>
      have h2 : findClosestGo today t acc = some (d, f, s, e) := by
        simpa [findClosestGo] using h
      rcases ih acc d f s e h2 with ⟨ha, hall⟩ | ⟨hd, ⟨l1, l2, hl, h1, h2b⟩, hacc⟩
      · left
        refine ⟨ha, ?_⟩
        intro m hm
        rcases List.mem_cons.1 hm with hmx | hmt
        · exact absurd hmx (by simp)
        · exact hall m hmt
      · right
        refine ⟨hd, ⟨none :: l1, l2, by rw [hl]; rfl, ?_, h2b⟩, hacc⟩
        intro m hm
        rcases List.mem_cons.1 hm with hmx | hmt
        · exact absurd hmx (by simp)
        · exact h1 m hmt
    | some m0 =>
      obtain ⟨ms, mss, mse⟩ := m0
      cases acc with
      | none =>
        have h2 : findClosestGo today t (some (today - mse, ms, mss, mse))
            = some (d, f, s, e) := by
          simpa [findClosestGo] using h
        rcases ih _ d f s e h2 with ⟨ha, hall⟩ | ⟨hd, ⟨l1, l2, hl, h1, h2b⟩, hacc⟩
        · simp only [Option.some.injEq, Prod.mk.injEq] at ha
          obtain ⟨rfl, rfl, rfl, rfl⟩ := ha
          right
          exact ⟨rfl, ⟨[], t, rfl, by simp, hall⟩, by simp⟩
        · right
          refine ⟨hd, ⟨some ⟨ms, mss, mse⟩ :: l1, l2, by rw [hl]; rfl, ?_, h2b⟩,
            by simp⟩
          intro m hm
          rcases List.mem_cons.1 hm with hmx | hmt
          · obtain rfl : m = ⟨ms, mss, mse⟩ := by
              simpa using hmx
            simpa using hacc (today - mse, ms, mss, mse) rfl
          · exact h1 m hmt
      | some b =>
        obtain ⟨bd, bf, bs, be⟩ := b
        by_cases hlt : today - mse < bd
        · have h2 : findClosestGo today t (some (today - mse, ms, mss, mse))
              = some (d, f, s, e) := by
            simpa [findClosestGo, hlt] using h
          rcases ih _ d f s e h2 with ⟨ha, hall⟩ | ⟨hd, ⟨l1, l2, hl, h1, h2b⟩, hacc⟩
          · simp only [Option.some.injEq, Prod.mk.injEq] at ha
            obtain ⟨rfl, rfl, rfl, rfl⟩ := ha
            right
            refine ⟨rfl, ⟨[], t, rfl, by simp, hall⟩, ?_⟩
            intro b hb
            simp only [Option.some.injEq] at hb
            rw [← hb]
            exact hlt
          · right
            have hstrict : d < today - mse :=
              by simpa using hacc (today - mse, ms, mss, mse) rfl
            refine ⟨hd, ⟨some ⟨ms, mss, mse⟩ :: l1, l2, by rw [hl]; rfl, ?_, h2b⟩, ?_⟩
            · intro m hm
              rcases List.mem_cons.1 hm with hmx | hmt
              · obtain rfl : m = ⟨ms, mss, mse⟩ := by simpa using hmx
                exact hstrict
              · exact h1 m hmt
            · intro b hb
              simp only [Option.some.injEq] at hb
              rw [← hb]
              exact hstrict.trans hlt
        · have h2 : findClosestGo today t (some (bd, bf, bs, be))
              = some (d, f, s, e) := by
            simpa [findClosestGo, hlt] using h
          rcases ih _ d f s e h2 with ⟨ha, hall⟩ | ⟨hd, ⟨l1, l2, hl, h1, h2b⟩, hacc⟩
          · simp only [Option.some.injEq, Prod.mk.injEq] at ha
            obtain ⟨rfl, rfl, rfl, rfl⟩ := ha
            left
            refine ⟨rfl, ?_⟩
            intro m hm
            rcases List.mem_cons.1 hm with hmx | hmt
            · obtain rfl : m = ⟨ms, mss, mse⟩ := by simpa using hmx
              simpa using not_lt.1 hlt
            · exact hall m hmt
          · right
            have hbd : d < bd := by simpa using hacc (bd, bf, bs, be) rfl
            refine ⟨hd, ⟨some ⟨ms, mss, mse⟩ :: l1, l2, by rw [hl]; rfl, ?_, h2b⟩, ?_⟩
            · intro m hm
              rcases List.mem_cons.1 hm with hmx | hmt
              · obtain rfl : m = ⟨ms, mss, mse⟩ := by simpa using hmx
                exact lt_of_lt_of_le hbd (by simpa using not_lt.1 hlt)
              · exact h1 m hmt
            · intro b hb
              simp only [Option.some.injEq] at hb
              rw [← hb]
              exact hbd

/-- A parent listed at the parent prompt is a row of the input table. -/
theorem mem_selectorParents {cats : List Category} {p : Category}
    (h : p ∈ selectorParents cats) : p ∈ cats :=
  mem_of_mem_dedupByNameAux _ _ _ (List.mem_of_mem_filter h)

/-- Every name listed at the subcategory prompt is the name of a row of
the input table. -/
theorem childrenOf_names {cats : List Category} {pname nm : String}
    (h : nm ∈ childrenOf cats pname) : ∃ c ∈ cats, c.name = nm := by
  unfold childrenOf getChildren at h
  cases hf : (dedupByName cats).find? fun c => c.name == pname with
  | none => rw [hf] at h; simp at h
  | some p =>
    rw [hf] at h
    unfold dedupKeepFirst at h
    rw [mem_dedupKeepFirstAux] at h
    obtain ⟨h1, -⟩ := h
    obtain ⟨c, hc, rfl⟩ := List.mem_map.1 h1
    exact ⟨c, mem_of_mem_dedupByNameAux _ _ _ (List.mem_of_mem_filter hc), rfl⟩

/-- The reachability invariant of the selection loop: at the
subcategory prompt, the remembered parent name and every listed child
name come from the input table. -/
def selStateOK (cats : List Category) : SelState → Prop
  | .choosingParent => True
  | .choosingChild pname children =>
      (∃ c ∈ cats, c.name = pname)
      ∧ ∀ nm ∈ children, ∃ c ∈ cats, c.name = nm

/-- One prompt round preserves the reachability invariant. -/
theorem selectorStep_inl (cats : List Category) (st : SelState) (i : Inp)
    (st2 : SelState) (hok : selStateOK cats st)
    (h : selectorStep cats st i = .inl st2) : selStateOK cats st2 := by
  cases st with
  | choosingParent =>
    cases i with
    | digit k =>
      simp only [selectorStep] at h
      split at h
      · split at h
        · exact absurd h (by simp)
        · obtain rfl : SelState.choosingChild _ _ = st2 := by
            simpa using h
          refine ⟨?_, ?_⟩
          · exact ⟨_, mem_selectorParents (List.get_mem _ _ _), rfl⟩
          · intro nm hnm
            exact childrenOf_names hnm
      · obtain rfl : SelState.choosingParent = st2 := by simpa using h
        trivial
    | skipTok => exact absurd h (by simp [selectorStep])
    | backTok =>
      obtain rfl : SelState.choosingParent = st2 := by
        simpa [selectorStep] using h
      trivial
    | emptyTok =>
      obtain rfl : SelState.choosingParent = st2 := by
        simpa [selectorStep] using h
      trivial
    | junk =>
      obtain rfl : SelState.choosingParent = st2 := by
        simpa [selectorStep] using h
      trivial
  | choosingChild pname children =>
    cases i with
    | digit k =>
      simp only [selectorStep] at h
      split at h
      · split at h
        · obtain rfl : SelState.choosingParent = st2 := by simpa using h
          trivial
        · exact absurd h (by simp)
      · obtain rfl : SelState.choosingChild pname children = st2 := by
          simpa using h
        exact hok
    | skipTok =>
      obtain rfl : SelState.choosingChild pname children = st2 := by
        simpa [selectorStep] using h
      exact hok
    | backTok =>
      obtain rfl : SelState.choosingParent = st2 := by
        simpa [selectorStep] using h
      trivial
    | emptyTok =>
      simp only [selectorStep] at h
      split at h
      · obtain rfl : SelState.choosingParent = st2 := by simpa using h
        trivial
      · exact absurd h (by simp)
    | junk =>
      obtain rfl : SelState.choosingChild pname children = st2 := by
        simpa [selectorStep] using h
      exact hok

/-- A terminating prompt round yields the skip outcome or a name of the
input table. -/
theorem selectorStep_inr (cats : List Category) (st : SelState) (i : Inp)
    (res : Option String) (hok : selStateOK cats st)
    (h : selectorStep cats st i = .inr res) :
    res = none ∨ ∃ c ∈ cats, res = some c.name := by
  cases st with
  | choosingParent =>
    cases i with
    | digit k =>
      simp only [selectorStep] at h
      split at h
      · split at h
        · obtain rfl : some _ = res := by simpa using h
          exact .inr ⟨_, mem_selectorParents (List.get_mem _ _ _), rfl⟩
        · exact absurd h (by simp)
      · exact absurd h (by simp)
    | skipTok =>
      obtain rfl : (none : Option String) = res := by
        simpa [selectorStep] using h
      exact .inl rfl
    | backTok => exact absurd h (by simp [selectorStep])
    | emptyTok => exact absurd h (by simp [selectorStep])
    | junk => exact absurd h (by simp [selectorStep])
  | choosingChild pname children =>
    cases i with
    | digit k =>
      simp only [selectorStep] at h
      split at h
      · split at h
        · exact absurd h (by simp)
        · rename_i hk hne
          obtain rfl : some (children.get ⟨k, hk⟩) = res := by simpa using h
          obtain ⟨c, hc, hcn⟩ :=
            hok.2 (children.get ⟨k, hk⟩) (List.get_mem _ _ _)
          exact .inr ⟨c, hc, by rw [hcn]⟩
      · exact absurd h (by simp)
    | skipTok => exact absurd h (by simp [selectorStep])
    | backTok => exact absurd h (by simp [selectorStep])
    | emptyTok =>
      simp only [selectorStep] at h
      split at h
      · exact absurd h (by simp)
      · obtain rfl : some pname = res := by simpa using h
        obtain ⟨c, hc, hcn⟩ := hok.1
        exact .inr ⟨c, hc, by rw [hcn]⟩
    | junk => exact absurd h (by simp [selectorStep])

/-- Whatever state the selection loop is in (within the invariant), a
terminated run yields the skip outcome or a name of the input table. -/
theorem runSelector_names_aux (cats : List Category) :
    ∀ (inputs : List Inp) (st : SelState), selStateOK cats st →
      ∀ res, runSelector cats st inputs = some res →
        res = none ∨ ∃ c ∈ cats, res = some c.name := by
  intro inputs
  induction inputs with
  | nil =>
    intro st _ res h
    simp [runSelector] at h
  | cons i rest ih =>
    intro st hok res h
    rw [runSelector] at h
    cases hstep : selectorStep cats st i with
    | inl st2 =>
      rw [hstep] at h
      exact ih st2 (selectorStep_inl cats st i st2 hok hstep) res h
    | inr r =>
      rw [hstep] at h
      obtain rfl : r = res := by simpa using h
      exact selectorStep_inr cats st i r hok hstep

/-! ## Claim theorems -/

/-- C2: the dedup pass marks a bank transaction as in-ledger iff some
ledger transaction has an equal amount (any date) AND some — possibly
different — ledger transaction has an equal date (any amount); the two
conditions are tested against the whole ledger set independently. -/
theorem dedup_in_ledger_iff (ml : List LedgerTransaction)
    (banks : List BankTransaction) (b : BankTransaction) (flag : Bool)
    (h : (b, flag) ∈ checkIfAlreadyAdded ml banks) :
    flag = true ↔
      (∃ l ∈ ml, l.amount = b.amount) ∧ (∃ l2 ∈ ml, l2.date = b.date) := by
  unfold checkIfAlreadyAdded at h
  by_cases hml : ml.isEmpty
  · rw [if_pos hml] at h
    rw [List.isEmpty_iff] at hml
    subst hml
    obtain ⟨b2, -, hpair⟩ := List.mem_map.1 h
    injection hpair with hb hflag
    subst hb
    simp [← hflag]
  · rw [if_neg hml] at h
    obtain ⟨b2, -, hpair⟩ := List.mem_map.1 h
    injection hpair with hb hflag
    subst hb
    subst hflag
    simp [List.any_eq_true, Bool.and_eq_true, beq_iff_eq]

/-- Witness for C2 at the cross-row false positive: the bank row with
amount 5 and date 20 is flagged although the amount comes from one
ledger row and the date from another. -/
theorem dedup_in_ledger_iff_witness :
    (∃ l ∈ [(⟨"a", 5, 10, "c"⟩ : LedgerTransaction), ⟨"b", 7, 20, "c"⟩],
        l.amount = (5 : Int))
    ∧ (∃ l2 ∈ [(⟨"a", 5, 10, "c"⟩ : LedgerTransaction), ⟨"b", 7, 20, "c"⟩],
        l2.date = (20 : Int)) :=
  (dedup_in_ledger_iff [⟨"a", 5, 10, "c"⟩, ⟨"b", 7, 20, "c"⟩]
    [⟨5, 20, []⟩] ⟨5, 20, []⟩ true (by decide)).mp rfl

/-- C3: a rule matches iff every one of its (field, pattern) conditions
succeeds under the (case-insensitive, anchored-at-start) matcher applied
to the string form of the field, a missing field reading as the empty
string; the pass assigns the label of the first fully matching rule in
list order, and no label when no rule matches. -/
theorem preset_first_match_spec (rmatch : String → String → Bool)
    (presets : List Preset) (b : BankTransaction) :
    (∀ p : Preset, isPresetMatched rmatch b p = true ↔
        ∀ cp ∈ p.conditions, rmatch cp.2 (fieldStr b cp.1) = true)
    ∧ (compareToPresets rmatch presets b = none ↔
        ∀ p ∈ presets, isPresetMatched rmatch b p = false)
    ∧ (∀ lab, compareToPresets rmatch presets b = some lab →
        ∃ pre p post, presets = pre ++ p :: post
          ∧ isPresetMatched rmatch b p = true
          ∧ lab = p.label
          ∧ ∀ q ∈ pre, isPresetMatched rmatch b q = false) := by
  refine ⟨?_, ?_, ?_⟩
  · intro p
    simp [isPresetMatched, List.all_eq_true]
  · simp only [compareToPresets, Option.map_eq_none', List.find?_eq_none]
    constructor
    · intro h p hp
      simpa using h p hp
    · intro h p hp
      simp [h p hp]
  · intro lab h
    simp only [compareToPresets, Option.map_eq_some'] at h
    obtain ⟨p, hfind, hlab⟩ := h
    obtain ⟨l1, l2, rfl, hmatch, hall⟩ := find?_eq_some_split _ _ p hfind
    exact ⟨l1, p, l2, rfl, hmatch, hlab.symm, hall⟩

/-- Witness for C3: with two rules both matching, the assigned label is
the first rule's. -/
theorem preset_first_match_spec_witness :
    ∃ pre p post,
      [(⟨[("name", "x")], ⟨"n1", "c1", "expense"⟩⟩ : Preset),
       ⟨[("name", "x")], ⟨"n2", "c2", "expense"⟩⟩] = pre ++ p :: post
      ∧ isPresetMatched (fun pat v => pat == v) ⟨0, 0, [("name", "x")]⟩ p = true
      ∧ (⟨"n1", "c1", "expense"⟩ : Label) = p.label
      ∧ ∀ q ∈ pre,
          isPresetMatched (fun pat v => pat == v) ⟨0, 0, [("name", "x")]⟩ q = false :=
  (preset_first_match_spec (fun pat v => pat == v)
    [⟨[("name", "x")], ⟨"n1", "c1", "expense"⟩⟩,
     ⟨[("name", "x")], ⟨"n2", "c2", "expense"⟩⟩]
    ⟨0, 0, [("name", "x")]⟩).2.2 ⟨"n1", "c1", "expense"⟩ rfl

/-- C4: the preset flag is computed on every processed row (including
rows already marked in-ledger); the automatically transferred rows are
exactly those with `is_in_ml` false and `has_preset` true, the rows
routed to manual entry exactly those with both flags false, and a row
already in the ledger is never transferred. -/
theorem classification_partition (rmatch : String → String → Bool)
    (presets : List Preset) (ml : List LedgerTransaction)
    (banks : List BankTransaction) :
    (∀ r ∈ processedRows rmatch presets ml banks,
        r.has_preset = (compareToPresets rmatch presets r.tx).isSome)
    ∧ (∀ r : Row, r ∈ transactionsToAdd rmatch presets ml banks ↔
        r ∈ processedRows rmatch presets ml banks
          ∧ r.is_in_ml = false ∧ r.has_preset = true)
    ∧ (∀ r : Row, r ∈ remainingRows rmatch presets ml banks ↔
        r ∈ processedRows rmatch presets ml banks
          ∧ r.is_in_ml = false ∧ r.has_preset = false)
    ∧ (∀ r ∈ transactionsToAdd rmatch presets ml banks, r.is_in_ml = false) := by
  refine ⟨?_, ?_, ?_, ?_⟩
  · intro r hr
    obtain ⟨r0, -, rfl⟩ :=
      List.mem_map.1 (by simpa [processedRows, presetPass] using hr)
    cases hcp : compareToPresets rmatch presets r0.tx <;> simp [hcp]
  · intro r
    rw [transactionsToAdd, List.mem_filter]
    simp [Bool.and_eq_true, Bool.not_eq_true', and_assoc]
  · intro r
    rw [remainingRows, List.mem_filter]
    simp [Bool.not_eq_true', Bool.or_eq_false_iff, and_assoc]
  · intro r hr
    rcases List.mem_filter.1 hr with ⟨-, hflags⟩
    exact Bool.not_eq_true' .. ▸ (Bool.and_eq_true .. ▸ hflags).1

/-- Witness for C4: a concrete row with `is_in_ml` false and a matching
preset is classified as automatically transferable, and its `is_in_ml`
flag is indeed false. -/
theorem classification_partition_witness :
    Row.is_in_ml
      ⟨⟨5, 10, [("name", "x")]⟩, false, true, some ⟨"n1", "c1", "expense"⟩⟩
      = false :=
  (classification_partition (fun pat v => pat == v)
      [⟨[("name", "x")], ⟨"n1", "c1", "expense"⟩⟩] [⟨"a", 7, 20, "c"⟩]
      [⟨5, 10, [("name", "x")]⟩]).2.2.2
    ⟨⟨5, 10, [("name", "x")]⟩, false, true, some ⟨"n1", "c1", "expense"⟩⟩
    (by decide)

/-- C5: category-id resolution raises `ValueError` exactly when zero
categories match all three masks; with more than one match it does not
raise — it warns and returns the id of the first match in input
order. -/
theorem category_resolution_spec (cats : List Category)
    (walletId catName ctype : String) :
    ((∃ msg, (getCategoryId cats walletId catName ctype).1 = .error msg) ↔
        matchingCategories cats walletId catName ctype = [])
    ∧ (∀ c rest, matchingCategories cats walletId catName ctype = c :: rest →
        (getCategoryId cats walletId catName ctype).1 = .ok c.id
        ∧ ((getCategoryId cats walletId catName ctype).2 = true ↔ rest ≠ [])) := by
  constructor
  · cases hm : matchingCategories cats walletId catName ctype with
    | nil => simp [getCategoryId, hm]
    | cons c rest => simp [getCategoryId, hm]
  · intro c rest hm
    refine ⟨by simp [getCategoryId, hm], ?_⟩
    simp [getCategoryId, hm, List.isEmpty_iff]

/-- Witness for C5: two duplicate categories (same wallet, name, type)
resolve without raising, to the first id in input order, with the
warning emitted. -/
theorem category_resolution_spec_witness :
    (getCategoryId
        [⟨"w", "Food", "expense", .str "id1", none⟩,
         ⟨"w", "Food", "expense", .str "id2", none⟩] "w" "Food" "expense").1
      = .ok (PyVal.str "id1")
    ∧ ((getCategoryId
        [⟨"w", "Food", "expense", .str "id1", none⟩,
         ⟨"w", "Food", "expense", .str "id2", none⟩] "w" "Food" "expense").2 = true
      ↔ [(⟨"w", "Food", "expense", .str "id2", none⟩ : Category)] ≠ []) :=
  (category_resolution_spec
      [⟨"w", "Food", "expense", .str "id1", none⟩,
       ⟨"w", "Food", "expense", .str "id2", none⟩] "w" "Food" "expense").2
    ⟨"w", "Food", "expense", .str "id1", none⟩
    [⟨"w", "Food", "expense", .str "id2", none⟩] (by decide)

/-- C6, code evaluated at the failing input: with only "Groceries"
resolvable, the batch [food, gym→"Sports", more] submits the first row,
stops at the second with the bare `ValueError` — the `except KeyError`
handler does not catch it, so no line naming the offending category is
printed — and never attempts the third. -/
theorem transfer_abort_no_print :
    transferFromPresets [⟨"w1", "Groceries", "expense", .str "c1", none⟩] "w1"
      [(⟨-10, 5, []⟩, ⟨"food", "Groceries", "expense"⟩),
       (⟨-20, 6, []⟩, ⟨"gym", "Sports", "expense"⟩),
       (⟨-30, 7, []⟩, ⟨"more", "Groceries", "expense"⟩)]
    = ⟨[⟨"w1", .str "c1", -10, 5, "food"⟩],
       [PrintEvent.added "food" (-10)],
       some PyErr.valueError⟩ := rfl

/-- C8: a manually resolved transaction produces an add-transaction
call whose wallet id, category id, amount, date and note are exactly
the resolved values. -/
theorem manual_roundtrip (cats : List Category) (walletId : String)
    (walletCats : List Category) (b : BankTransaction) (t : String)
    (catChoice : List Category → Option String) (note cname : String)
    (cid : PyVal)
    (hc : catChoice (walletCats.filter fun c => c.type == t) = some cname)
    (hid : (getCategoryId cats walletId cname t).1 = .ok cid) :
    fillManually cats walletId walletCats b (some t) catChoice note
      = .ok (some ⟨walletId, cid, b.amount, b.date, note⟩)
    ∧ addTransaction ⟨walletId, cid, b.amount, b.date, note⟩
      = ⟨walletId, cid, b.amount, note, b.date⟩ := by
  refine ⟨?_, rfl⟩
  simp only [fillManually, hc, hid]
  rfl

/-- Witness for C8 at a concrete manual resolution. -/
theorem manual_roundtrip_witness :
    fillManually [⟨"w", "Food", "expense", .str "id1", none⟩] "w"
        [⟨"w", "Food", "expense", .str "id1", none⟩] ⟨-10, 5, []⟩
        (some "expense") (fun l => l.head?.map Category.name) "dinner"
      = .ok (some ⟨"w", .str "id1", -10, 5, "dinner"⟩)
    ∧ addTransaction ⟨"w", .str "id1", -10, 5, "dinner"⟩
      = ⟨"w", .str "id1", -10, "dinner", 5⟩ :=
  manual_roundtrip [⟨"w", "Food", "expense", .str "id1", none⟩] "w"
    [⟨"w", "Food", "expense", .str "id1", none⟩] ⟨-10, 5, []⟩ "expense"
    (fun l => l.head?.map Category.name) "dinner" "Food" (.str "id1") rfl rfl

/-- C7 counterexample: with numeric identifiers (id 7, child parent 7)
the code returns no children although the child's parent identifier
equals the parent's id once both sides are canonicalized to strings —
the code stringifies only the selected parent's id and compares the
parent column raw. -/
theorem children_compare_counterexample :
    childrenOf
      [⟨"w", "P", "expense", .int 7, none⟩,
       ⟨"w", "C", "expense", .int 8, some (.int 7)⟩] "P" = []
    ∧ specChildrenOf
      [⟨"w", "P", "expense", .int 7, none⟩,
       ⟨"w", "C", "expense", .int 8, some (.int 7)⟩] "P" = ["C"]
    ∧ pyStr (PyVal.int 7) = pyStr (PyVal.int 7) :=
  ⟨rfl, rfl, rfl⟩

/-- C7 amended: `children(parent_name)` is duplicate-free, and its
members are exactly the names of (name-deduplicated) rows whose raw
`parent` cell equals the string form of the selected parent's id — only
the parent's id is canonicalized, so a numeric `parent` cell never
matches. -/
theorem children_nodup_characterization (cats : List Category)
    (parentName : String) :
    (childrenOf cats parentName).Nodup
    ∧ (∀ p, (dedupByName cats).find? (fun c => c.name == parentName) = some p →
        ∀ nm, nm ∈ childrenOf cats parentName ↔
          ∃ c ∈ dedupByName cats,
            c.parent = some (PyVal.str (pyStr p.id)) ∧ c.name = nm)
    ∧ ((dedupByName cats).find? (fun c => c.name == parentName) = none →
        childrenOf cats parentName = []) := by
  refine ⟨?_, ?_, ?_⟩
  · unfold childrenOf getChildren
    cases hf : (dedupByName cats).find? fun c => c.name == parentName with
    | none => simp
    | some p => exact dedupKeepFirstAux_nodup _ _
  · intro p hf nm
    unfold childrenOf getChildren
    rw [hf]
    unfold dedupKeepFirst
    rw [mem_dedupKeepFirstAux]
    simp only [List.mem_map, List.mem_filter, List.mem_nil_iff,
      not_false_iff, and_true, beq_iff_eq]
    constructor
    · rintro ⟨c, ⟨hc, hpar⟩, rfl⟩
      exact ⟨c, hc, hpar, rfl⟩
    · rintro ⟨c, hc, hpar, rfl⟩
      exact ⟨c, ⟨hc, hpar⟩, rfl⟩
  · intro hf
    unfold childrenOf getChildren
    rw [hf]

/-- C1 counterexample: with today = day 100, the candidate "A" ending
on day 99 has absolute difference 1 while "B" ending on day 400 has
absolute difference 300, yet the selector returns "B" — the code
minimizes the signed difference, and a future end date (negative
difference) beats every past one. -/
theorem selector_abs_min_counterexample :
    findClosestEndDateFile 100
      [some ⟨"A", 70, 99⟩, some ⟨"B", 370, 400⟩] = .ok ("B", 370, 400)
    ∧ some (⟨"A", 70, 99⟩ : FileMatch)
        ∈ [some (⟨"A", 70, 99⟩ : FileMatch), some ⟨"B", 370, 400⟩]
    ∧ ((100 : Int) - 99).natAbs < ((100 : Int) - 400).natAbs :=
  ⟨rfl, by decide, by decide⟩

/-- C1 amended: the Statement Selector returns the candidate that
minimizes the signed day difference `today - end_date` (so a future end
date, with negative difference, beats every past one), strictly better
than every earlier candidate and no worse than every later one — ties
keep the first-seen candidate in iteration order. -/
theorem selector_signed_min_first (today : Int) (ms : List (Option FileMatch))
    (f : String) (s e : Int)
    (h : findClosestEndDateFile today ms = .ok (f, s, e)) :
    ∃ l1 l2, ms = l1 ++ some (⟨f, s, e⟩ : FileMatch) :: l2
      ∧ (∀ m : FileMatch, some m ∈ l1 → today - e < today - m.end_date)
      ∧ (∀ m : FileMatch, some m ∈ l2 → today - e ≤ today - m.end_date) := by
  unfold findClosestEndDateFile at h
  cases hg : findClosestGo today ms none with
  | none => rw [hg] at h; exact absurd h (by simp)
  | some r =>
    obtain ⟨d, f2, s2, e2⟩ := r
    rw [hg] at h
    simp only [Except.ok.injEq, Prod.mk.injEq] at h
    obtain ⟨rfl, rfl, rfl⟩ := h
    rcases findClosestGo_ok today ms none d f2 s2 e2 hg with
      ⟨ha, -⟩ | ⟨hd, ⟨l1, l2, hl, h1, h2⟩, -⟩
    · exact absurd ha (by simp)
    · subst hd
      exact ⟨l1, l2, hl, h1, h2⟩

/-- Witness for C1 amended, at the concrete candidate set of the test
suite (day numbers; today = 95): the "mar" file ending on day 90 wins. -/
theorem selector_signed_min_first_witness :
    ∃ l1 l2,
      [some ⟨"jan", 1, 31⟩, some ⟨"feb", 32, 60⟩, some ⟨"mar", 61, 90⟩,
       some ⟨"dec", -30, 0⟩, some ⟨"nov", -60, -31⟩]
        = l1 ++ some (⟨"mar", 61, 90⟩ : FileMatch) :: l2
      ∧ (∀ m : FileMatch, some m ∈ l1 → (95 : Int) - 90 < 95 - m.end_date)
      ∧ (∀ m : FileMatch, some m ∈ l2 → (95 : Int) - 90 ≤ 95 - m.end_date) :=
  selector_signed_min_first 95
    [some ⟨"jan", 1, 31⟩, some ⟨"feb", 32, 60⟩, some ⟨"mar", 61, 90⟩,
     some ⟨"dec", -30, 0⟩, some ⟨"nov", -60, -31⟩] "mar" 61 90 rfl

/-- C9: the Statement Selector raises the not-found error iff no file
name matches the pattern; when some file matches, it returns a matching
file (with the date range parsed from its name) and raises no error. -/
theorem statement_notfound_iff (today : Int)
    (matcher : String → Option (Int × Int)) (files : List String) :
    (findStatement today matcher files = .error () ↔
        ∀ fn ∈ files, matcher fn = none)
    ∧ (∀ fn s e, findStatement today matcher files = .ok (fn, s, e) →
        fn ∈ files ∧ matcher fn = some (s, e)) := by
  constructor
  · unfold findStatement findClosestEndDateFile
    cases hg : findClosestGo today
        (files.map fun fn => (matcher fn).map fun p => ⟨fn, p.1, p.2⟩) none with
    | none =>
      refine iff_of_true rfl ?_
      intro fn hfn
      have hx := (findClosestGo_none_iff today _).1 hg _
        (List.mem_map_of_mem _ hfn)
      simpa [Option.map_eq_none'] using hx
    | some r =>
      obtain ⟨d, f2, s2, e2⟩ := r
      refine iff_of_false (by simp) ?_
      intro hall
      have hnone : findClosestGo today
          (files.map fun fn => (matcher fn).map fun p => ⟨fn, p.1, p.2⟩) none
            = none := by
        refine (findClosestGo_none_iff today _).2 ?_
        intro x hx
        obtain ⟨fn, hfn, rfl⟩ := List.mem_map.1 hx
        rw [hall fn hfn]
        rfl
      rw [hg] at hnone
      exact Option.noConfusion hnone
  · intro fn s e h
    unfold findStatement findClosestEndDateFile at h
    cases hg : findClosestGo today
        (files.map fun fn => (matcher fn).map fun p => ⟨fn, p.1, p.2⟩) none with
    | none => rw [hg] at h; exact absurd h (by simp)
    | some r =>
      obtain ⟨d, f2, s2, e2⟩ := r
      rw [hg] at h
      simp only [Except.ok.injEq, Prod.mk.injEq] at h
      obtain ⟨rfl, rfl, rfl⟩ := h
      rcases findClosestGo_ok today _ none d f2 s2 e2 hg with
        ⟨ha, -⟩ | ⟨-, ⟨l1, l2, hl, -, -⟩, -⟩
      · exact absurd ha (by simp)
      · have hmem : some (⟨f2, s2, e2⟩ : FileMatch)
            ∈ files.map fun fn => (matcher fn).map fun p => ⟨fn, p.1, p.2⟩ := by
          rw [hl]
          exact List.mem_append_right _ (List.mem_cons_self _ _)
        obtain ⟨f0, hf0, hconv⟩ := List.mem_map.1 hmem
        rw [Option.map_eq_some'] at hconv
        obtain ⟨p, hp, hpg⟩ := hconv
        obtain ⟨p1, p2⟩ := p
        injection hpg with hg1 hg2 hg3
        subst hg1
        subst hg2
        subst hg3
        exact ⟨hf0, hp⟩

/-- Witness for C9: at the concrete candidate set, the winning file is
one of the folder files and its name parses to the recorded range. -/
theorem statement_notfound_iff_witness :
    "mar" ∈ ["jan", "feb", "mar", "dec", "nov"]
    ∧ (fun fn => if fn = "jan" then some ((1 : Int), (31 : Int))
        else if fn = "feb" then some (32, 60)
        else if fn = "mar" then some (61, 90)
        else if fn = "dec" then some (-30, 0)
        else if fn = "nov" then some (-60, -31)
        else none) "mar" = some (61, 90) :=
  (statement_notfound_iff 95
    (fun fn => if fn = "jan" then some ((1 : Int), (31 : Int))
        else if fn = "feb" then some (32, 60)
        else if fn = "mar" then some (61, 90)
        else if fn = "dec" then some (-30, 0)
        else if fn = "nov" then some (-60, -31)
        else none)
    ["jan", "feb", "mar", "dec", "nov"]).2 "mar" 61 90 rfl

/-- Witness for C7 amended: a string-identified child is listed. -/
theorem children_nodup_characterization_witness :
    "C" ∈ childrenOf
      [⟨"w", "P", "expense", .str "7", none⟩,
       ⟨"w", "C", "expense", .str "8", some (.str "7")⟩] "P" :=
  ((children_nodup_characterization
      [⟨"w", "P", "expense", .str "7", none⟩,
       ⟨"w", "C", "expense", .str "8", some (.str "7")⟩] "P").2.1
    ⟨"w", "P", "expense", .str "7", none⟩ rfl "C").2
    ⟨⟨"w", "C", "expense", .str "8", some (.str "7")⟩, by decide, rfl, rfl⟩

/-- C10: whenever the interactive category-selection loop terminates,
its outcome is either the skip outcome (no category, `None`) or the
name of some row of the input categories table. -/
theorem selector_returns_input_name (cats : List Category)
    (inputs : List Inp) (res : Option String)
    (h : runSelector cats .choosingParent inputs = some res) :
    res = none ∨ ∃ c ∈ cats, res = some c.name :=
  runSelector_names_aux cats inputs .choosingParent trivial res h

/-- Witness for C10: selecting index 0 on a one-parent table terminates
with that parent's name, which the theorem certifies comes from the
input table. -/
theorem selector_returns_input_name_witness :
    (some "P" : Option String) = none
    ∨ ∃ c ∈ [(⟨"w", "P", "expense", .str "7", none⟩ : Category)],
        (some "P" : Option String) = some c.name :=
  selector_returns_input_name [⟨"w", "P", "expense", .str "7", none⟩]
    [.digit 0] (some "P") rfl

end MoneyMover
